import Mathlib

/-!
Shallow embedding of the TLS/QUIC crypto-integration layer of
`quic/s2n-quic-core/src/crypto/tls.rs`: the cipher-suite and extension-type
registries, the handshake record header, the `NonContiguousBuffer` read
cursor (together with the default `bytes::Buf` combinators it inherits:
`get_u8`, `get_u16`, `copy_to_slice`, `copy_to_bytes`), and the
`ClientHello::from_bytes` extractor.

Bytes are modelled as `Nat` values (< 256 on real inputs); byte buffers as
`List Nat`; a panic or abort of the Rust code is modelled as `Option.none`.
-/

/-- `CipherSuite` from `tls.rs`: the closed cipher-suite enumeration. -/
inductive CipherSuite
  | TLS_AES_128_GCM_SHA256
  | TLS_AES_256_GCM_SHA384
  | TLS_CHACHA20_POLY1305_SHA256
  | Unknown
deriving DecidableEq

/-- `impl From<u16> for CipherSuite`: total map from a 2-byte wire tag. -/
def CipherSuite.fromU16 (item : Nat) : CipherSuite :=
  let tag1 : Nat := (0x13 <<< 8) + 0x1
  let tag2 : Nat := (0x13 <<< 8) + 0x2
  let tag3 : Nat := (0x13 <<< 8) + 0x3
  if item = tag1 then .TLS_AES_128_GCM_SHA256
  else if item = tag2 then .TLS_AES_256_GCM_SHA384
  else if item = tag3 then .TLS_CHACHA20_POLY1305_SHA256
  else .Unknown

/-- `ExtensionType` from `tls.rs`: the closed extension registry. -/
inductive ExtensionType
  | server_name
  | max_fragment_length
  | status_request
  | supported_groups
  | ec_point_formats
  | signature_algorithms
  | use_srtp
  | heartbeat
  | application_layer_protocol_negotiation
  | signed_certificate_timestamp
  | client_certificate_type
  | server_certificate_type
  | padding
  | extended_master_secret
  | session_ticket
  | reserved_one
  | pre_shared_key
  | early_data
  | supported_versions
  | cookie
  | psk_key_exchange_modes
  | reserved_two
  | certificate_authorities
  | oid_filters
  | post_handshake_auth
  | signature_algorithms_cert
  | key_share
  | quic_transport_parameters
deriving DecidableEq

/-- The `repr(u8)` discriminant of each `ExtensionType` variant. -/
def ExtensionType.code : ExtensionType → Nat
  | .server_name => 0
  | .max_fragment_length => 1
  | .status_request => 5
  | .supported_groups => 10
  | .ec_point_formats => 11
  | .signature_algorithms => 13
  | .use_srtp => 14
  | .heartbeat => 15
  | .application_layer_protocol_negotiation => 16
  | .signed_certificate_timestamp => 18
  | .client_certificate_type => 19
  | .server_certificate_type => 20
  | .padding => 21
  | .extended_master_secret => 23
  | .session_ticket => 35
  | .reserved_one => 40
  | .pre_shared_key => 41
  | .early_data => 42
  | .supported_versions => 43
  | .cookie => 44
  | .psk_key_exchange_modes => 45
  | .reserved_two => 46
  | .certificate_authorities => 47
  | .oid_filters => 48
  | .post_handshake_auth => 49
  | .signature_algorithms_cert => 50
  | .key_share => 51
  | .quic_transport_parameters => 57

/-- `impl TryFrom<u16> for ExtensionType`: `none` models `Err(())`. -/
def ExtensionType.tryFromU16 (value : Nat) : Option ExtensionType :=
  if value = 0 then some .server_name
  else if value = 1 then some .max_fragment_length
  else if value = 5 then some .status_request
  else if value = 10 then some .supported_groups
  else if value = 11 then some .ec_point_formats
  else if value = 13 then some .signature_algorithms
  else if value = 14 then some .use_srtp
  else if value = 15 then some .heartbeat
  else if value = 16 then some .application_layer_protocol_negotiation
  else if value = 18 then some .signed_certificate_timestamp
  else if value = 19 then some .client_certificate_type
  else if value = 20 then some .server_certificate_type
  else if value = 21 then some .padding
  else if value = 23 then some .extended_master_secret
  else if value = 35 then some .session_ticket
  else if value = 40 then some .reserved_one
  else if value = 41 then some .pre_shared_key
  else if value = 42 then some .early_data
  else if value = 43 then some .supported_versions
  else if value = 44 then some .cookie
  else if value = 45 then some .psk_key_exchange_modes
  else if value = 46 then some .reserved_two
  else if value = 47 then some .certificate_authorities
  else if value = 48 then some .oid_filters
  else if value = 49 then some .post_handshake_auth
  else if value = 50 then some .signature_algorithms_cert
  else if value = 51 then some .key_share
  else if value = 57 then some .quic_transport_parameters
  else none

/-- The registered extension-type wire codes, in registry order. -/
def extensionRegistryCodes : List Nat :=
  [0, 1, 5, 10, 11, 13, 14, 15, 16, 18, 19, 20, 21, 23, 35, 40, 41, 42,
   43, 44, 45, 46, 47, 48, 49, 50, 51, 57]

/-- `HandshakeHeader` from `tls.rs`: 1-byte message type plus 3 length bytes,
laid out exactly as on the wire (`repr(C)`, `AsBytes`/`FromBytes`). -/
structure HandshakeHeader where
  msg_type : Nat
  len0 : Nat
  len1 : Nat
  len2 : Nat
deriving DecidableEq

/-- `HandshakeHeader::len`: zero-extend the 3 length bytes into a 32-bit
big-endian value. -/
def HandshakeHeader.len (h : HandshakeHeader) : Nat :=
  ((0 * 256 + h.len0) * 256 + h.len1) * 256 + h.len2

/-- `HandshakeHeader::is_empty`. -/
def HandshakeHeader.is_empty (h : HandshakeHeader) : Bool :=
  h.len = 0

/-- The zerocopy `AsBytes` encoding of a `HandshakeHeader`: its exact wire
layout, 4 bytes. -/
def HandshakeHeader.encode (h : HandshakeHeader) : List Nat :=
  [h.msg_type, h.len0, h.len1, h.len2]

/-- The zerocopy `FromBytes` decoding of a `HandshakeHeader` from a 4-byte
slice (`none` when the slice is not exactly 4 bytes). -/
def HandshakeHeader.decode (bytes : List Nat) : Option HandshakeHeader :=
  match bytes with
  | [b0, b1, b2, b3] => some ⟨b0, b1, b2, b3⟩
  | _ => none

/-- Build a `HandshakeHeader` for a `(type, length)` pair, storing the length
as 3 big-endian bytes. -/
def HandshakeHeader.ofPair (t length : Nat) : HandshakeHeader :=
  ⟨t, length / 65536 % 256, length / 256 % 256, length % 256⟩

/-- `NonContiguousBuffer` from `tls.rs`: a read cursor over an ordered list of
byte chunks. `slice` is the current chunk index, `byte` the offset in it. -/
structure NonContiguousBuffer where
  slices : List (List Nat)
  slice : Nat
  byte : Nat
deriving DecidableEq

/-- `NonContiguousBuffer::new`. -/
def NonContiguousBuffer.new (chunks : List (List Nat)) : NonContiguousBuffer :=
  ⟨chunks, 0, 0⟩

/-- `Buf::remaining` for `NonContiguousBuffer`: bytes left in the current
chunk plus all later chunks. -/
def NonContiguousBuffer.remaining (b : NonContiguousBuffer) : Nat :=
  if b.slice = b.slices.length then 0
  else
    ((b.slices.getD b.slice []).drop b.byte).length +
      ((b.slices.drop (b.slice + 1)).map List.length).sum

/-- `Buf::chunk` for `NonContiguousBuffer`: the unread suffix of the current
chunk, `[]` when exhausted. -/
def NonContiguousBuffer.chunk (b : NonContiguousBuffer) : List Nat :=
  if b.slice = b.slices.length then []
  else (b.slices.getD b.slice []).drop b.byte

/-- The `while cnt != 0` loop of `Buf::advance` for `NonContiguousBuffer`.
Indexing `slices[slice]` with `slice` out of bounds panics in Rust; that is
the `none` result reached through the `slice < slices.length` test. Every
round that neither returns nor panics moves to the next chunk, so the loop
runs at most `slices.length - slice + 1` rounds; the structural `fuel`
argument (always called with `slices.length + 1`) never runs out before one
of the loop's own exits is taken. -/
def NonContiguousBuffer.advanceLoop (fuel : Nat) (slices : List (List Nat))
    (slice byte cnt : Nat) : Option (Nat × Nat) :=
  match fuel with
  | 0 => none
  | fuel + 1 =>
    if cnt = 0 then some (slice, byte)
    else if hs : slice < slices.length then
      let len := (slices.get ⟨slice, hs⟩).length
      let remaining_in_slice := len - byte
      if remaining_in_slice ≥ cnt then
        if byte + cnt = len then some (slice + 1, 0) else some (slice, byte + cnt)
      else
        NonContiguousBuffer.advanceLoop fuel slices (slice + 1) 0
          (cnt - remaining_in_slice)
    else none

/-- `Buf::advance` for `NonContiguousBuffer` (`none` = panic). -/
def NonContiguousBuffer.advance (b : NonContiguousBuffer) (cnt : Nat) :
    Option NonContiguousBuffer :=
  (NonContiguousBuffer.advanceLoop (b.slices.length + 1) b.slices b.slice b.byte cnt).map
    fun p => ⟨b.slices, p.1, p.2⟩

/-- `Buf::has_remaining` (default implementation): `remaining() > 0`. -/
def NonContiguousBuffer.has_remaining (b : NonContiguousBuffer) : Bool :=
  b.remaining > 0

/-- The copy loop shared by the default `Buf::copy_to_slice` /
`Buf::copy_to_bytes`: repeatedly copy a prefix of the current chunk and
advance by its size until `need` bytes were copied. A round that copies zero
bytes loops forever in Rust; the fuel (strictly larger than `need`) then runs
out, giving `none`. -/
def NonContiguousBuffer.copyLoop (b : NonContiguousBuffer) (need fuel : Nat) :
    Option (List Nat × NonContiguousBuffer) :=
  match fuel with
  | 0 => none
  | fuel + 1 =>
    if need = 0 then some ([], b)
    else
      let src := b.chunk
      let cnt := min src.length need
      match b.advance cnt with
      | none => none
      | some b1 =>
        match NonContiguousBuffer.copyLoop b1 (need - cnt) fuel with
        | none => none
        | some p => some (src.take cnt ++ p.1, p.2)

/-- Default `Buf::copy_to_slice`: asserts `remaining() >= n` (panic = `none`),
then runs the copy loop. -/
def NonContiguousBuffer.copy_to_slice (b : NonContiguousBuffer) (n : Nat) :
    Option (List Nat × NonContiguousBuffer) :=
  if n ≤ b.remaining then NonContiguousBuffer.copyLoop b n (n + 1) else none

/-- Default `Buf::copy_to_bytes`: asserts `len <= remaining()` then copies
`len` bytes out (via `take`/`put`, same loop as `copy_to_slice`). -/
def NonContiguousBuffer.copy_to_bytes (b : NonContiguousBuffer) (n : Nat) :
    Option (List Nat × NonContiguousBuffer) :=
  NonContiguousBuffer.copy_to_slice b n

/-- Default `Buf::get_u8`: read directly from the current chunk when it has a
byte, otherwise fall back to `copy_to_slice`. -/
def NonContiguousBuffer.get_u8 (b : NonContiguousBuffer) :
    Option (Nat × NonContiguousBuffer) :=
  match b.chunk with
  | x :: _ => (b.advance 1).map fun b1 => (x, b1)
  | [] =>
    (b.copy_to_slice 1).map fun p => (p.1.getD 0 0, p.2)

/-- Default `Buf::get_u16` (big endian): read directly from the current chunk
when it has 2 bytes, otherwise fall back to `copy_to_slice`. -/
def NonContiguousBuffer.get_u16 (b : NonContiguousBuffer) :
    Option (Nat × NonContiguousBuffer) :=
  match b.chunk with
  | x :: y :: _ => (b.advance 2).map fun b1 => (x * 256 + y, b1)
  | _ =>
    (b.copy_to_slice 2).map fun p => (p.1.getD 0 0 * 256 + p.1.getD 1 0, p.2)

/-- `ClientHello` from `tls.rs`: the extraction result. -/
structure ClientHello where
  sni : Option (List Nat)
  alpn : Option (List Nat)
deriving DecidableEq

/-- The `while buffer.has_remaining()` extension loop of
`ClientHello::from_bytes`: read a 2-byte type and 2-byte payload length,
materialize ALPN (tag 16) and SNI (tag 0) payloads, skip everything else.
Each successful round consumes at least 4 bytes, so fuel `remaining + 1`
never runs out on the paths the Rust loop completes. -/
def ClientHello.extLoop (fuel : Nat) (b : NonContiguousBuffer)
    (sni alpn : Option (List Nat)) : Option ClientHello :=
  match fuel with
  | 0 => none
  | fuel + 1 =>
    if b.has_remaining then
      match b.get_u16 with
      | none => none
      | some (extension_type, b) =>
        match b.get_u16 with
        | none => none
        | some (extension_payload_length, b) =>
          if extension_type = 16 then
            match b.copy_to_bytes extension_payload_length with
            | none => none
            | some (payload, b) => ClientHello.extLoop fuel b sni (some payload)
          else if extension_type = 0 then
            match b.copy_to_bytes extension_payload_length with
            | none => none
            | some (payload, b) => ClientHello.extLoop fuel b (some payload) alpn
          else
            match b.advance extension_payload_length with
            | none => none
            | some b => ClientHello.extLoop fuel b sni alpn
    else some ⟨sni, alpn⟩

/-- `ClientHello::from_bytes` (`none` = panic): skip legacy version and
random, skip the length-prefixed session id, cipher-suite list and
compression methods, read the 2-byte extensions length, then run the
extension loop until the cursor is exhausted. -/
def ClientHello.from_bytes (payload : List (List Nat)) : Option ClientHello := do
  let b := NonContiguousBuffer.new payload
  let b ← b.advance 2
  let b ← b.advance 32
  let (session_length, b) ← b.get_u8
  let b ← b.advance session_length
  let (cipher_suite_length, b) ← b.get_u16
  let b ← b.advance cipher_suite_length
  let (compression_length, b) ← b.get_u8
  let b ← b.advance compression_length
  let (_extension_length, b) ← b.get_u16
  ClientHello.extLoop (b.remaining + 1) b none none

/-- The unread byte stream of a cursor position, flattened: the unread suffix
of the current chunk followed by all later chunks. -/
def restOf (slices : List (List Nat)) (slice byte : Nat) : List Nat :=
  ((slices.getD slice []).drop byte) ++ (slices.drop (slice + 1)).flatten

/-- The unread byte stream of a cursor, flattened. -/
def NonContiguousBuffer.rest (b : NonContiguousBuffer) : List Nat :=
  restOf b.slices b.slice b.byte

/-- Cursor well-formedness: every chunk is non-empty, the chunk index is in
range or one past the end, and the byte offset is strictly inside the current
chunk. These hold for `new` on non-empty chunks and are preserved by every
operation. -/
def NonContiguousBuffer.Inv (b : NonContiguousBuffer) : Prop :=
  (∀ c ∈ b.slices, c ≠ []) ∧ b.slice ≤ b.slices.length ∧
    ∀ h : b.slice < b.slices.length, b.byte < (b.slices.get ⟨b.slice, h⟩).length

theorem flatten_drop_succ (slices : List (List Nat)) (i : Nat) :
    (slices.drop i).flatten = slices.getD i [] ++ (slices.drop (i + 1)).flatten := by
  rcases Nat.lt_or_ge i slices.length with h | h
  · rw [List.drop_eq_getElem_cons h, List.flatten_cons,
      List.getD_eq_getElem?_getD, List.getElem?_eq_getElem h]
    rfl
  · rw [List.drop_eq_nil_of_le h, List.drop_eq_nil_of_le (by omega),
      List.getD_eq_default _ _ h]
    rfl

theorem restOf_exhausted (slices : List (List Nat)) (byte : Nat) :
    restOf slices slices.length byte = [] := by
  unfold restOf
  rw [List.getD_eq_default _ _ (le_refl _)]
  have hd : List.drop (slices.length + 1) slices = [] :=
    List.drop_eq_nil_of_le (by omega)
  simp [hd]

theorem rest_eq_chunk_append (b : NonContiguousBuffer) (h : b.slice ≤ b.slices.length) :
    b.rest = b.chunk ++ (b.slices.drop (b.slice + 1)).flatten := by
  unfold NonContiguousBuffer.rest NonContiguousBuffer.chunk restOf
  rcases Nat.eq_or_lt_of_le h with he | hl
  · rw [if_pos he, he, List.getD_eq_default _ _ (le_refl _)]
    simp
  · rw [if_neg (by omega)]

theorem remaining_eq_rest_length (b : NonContiguousBuffer)
    (h : b.slice ≤ b.slices.length) : b.remaining = b.rest.length := by
  unfold NonContiguousBuffer.remaining NonContiguousBuffer.rest restOf
  rcases Nat.eq_or_lt_of_le h with he | hl
  · rw [if_pos he, he, List.getD_eq_default _ _ (le_refl _)]
    have hd : List.drop (b.slices.length + 1) b.slices = [] :=
      List.drop_eq_nil_of_le (by omega)
    simp [hd]
  · rw [if_neg (by omega), List.length_append, List.length_flatten]

theorem restOf_next (slices : List (List Nat)) (slice byte : Nat)
    (h : slice < slices.length) :
    restOf slices (slice + 1) 0 =
      ((slices.get ⟨slice, h⟩).drop byte ++ (slices.drop (slice + 1)).flatten).drop
        ((slices.get ⟨slice, h⟩).length - byte) := by
  rw [List.drop_append_eq_append_drop]
  have h1 : List.drop ((slices.get ⟨slice, h⟩).length - byte)
      ((slices.get ⟨slice, h⟩).drop byte) = [] :=
    List.drop_eq_nil_of_le (by simp)
  rw [h1, List.nil_append, List.length_drop, Nat.sub_self, List.drop_zero]
  unfold restOf
  rw [List.drop_zero, ← flatten_drop_succ]

theorem advanceLoop_ok (slices : List (List Nat)) (hne : ∀ c ∈ slices, c ≠ []) :
    ∀ cnt fuel slice byte, slices.length - slice < fuel →
    slice ≤ slices.length →
    (∀ h : slice < slices.length, byte < (slices.get ⟨slice, h⟩).length) →
    cnt ≤ (restOf slices slice byte).length →
    ∃ s2 b2,
      NonContiguousBuffer.advanceLoop fuel slices slice byte cnt = some (s2, b2) ∧
      s2 ≤ slices.length ∧
      (∀ h : s2 < slices.length, b2 < (slices.get ⟨s2, h⟩).length) ∧
      restOf slices s2 b2 = (restOf slices slice byte).drop cnt := by
  intro cnt
  induction cnt using Nat.strong_induction_on with
  | _ cnt ih =>
    intro fuel slice byte hfuel hsle hbyte hcnt
    match fuel with
    | fuel + 1 =>
      by_cases hz : cnt = 0
      · subst hz
        exact ⟨slice, byte, by rw [NonContiguousBuffer.advanceLoop, if_pos rfl],
          hsle, hbyte, by rw [List.drop_zero]⟩
      · have hs : slice < slices.length := by
          rcases Nat.eq_or_lt_of_le hsle with he | hl
          · exfalso
            rw [he, restOf_exhausted] at hcnt
            simp at hcnt
            omega
          · exact hl
        have hb := hbyte hs
        have hgetd : slices.getD slice [] = slices.get ⟨slice, hs⟩ := by
          rw [List.getD_eq_getElem?_getD, List.getElem?_eq_getElem hs]
          rfl
        have hrest : restOf slices slice byte =
            (slices.get ⟨slice, hs⟩).drop byte ++ (slices.drop (slice + 1)).flatten := by
          unfold restOf
          rw [hgetd]
        have hrlen : (restOf slices slice byte).length =
            ((slices.get ⟨slice, hs⟩).length - byte) +
              (slices.drop (slice + 1)).flatten.length := by
          rw [hrest, List.length_append, List.length_drop]
        have hnext0 : ∀ h : slice + 1 < slices.length,
            0 < (slices.get ⟨slice + 1, h⟩).length := by
          intro h
          have hmem := hne (slices.get ⟨slice + 1, h⟩) (List.get_mem slices _ _)
          cases hc : slices.get ⟨slice + 1, h⟩ with
          | nil => exact absurd hc hmem
          | cons a l => simp [hc]
        by_cases hge : (slices.get ⟨slice, hs⟩).length - byte ≥ cnt
        · by_cases heq : byte + cnt = (slices.get ⟨slice, hs⟩).length
          · refine ⟨slice + 1, 0, ?_, by omega, fun h => hnext0 h, ?_⟩
            · rw [NonContiguousBuffer.advanceLoop, if_neg hz, dif_pos hs,
                if_pos hge, if_pos heq]
            · rw [restOf_next slices slice byte hs, ← hrest]
              congr 1
              omega
          · refine ⟨slice, byte + cnt, ?_, hsle, ?_, ?_⟩
            · rw [NonContiguousBuffer.advanceLoop, if_neg hz, dif_pos hs,
                if_pos hge, if_neg heq]
            · intro h
              have he2 : slices.get ⟨slice, h⟩ = slices.get ⟨slice, hs⟩ := rfl
              rw [he2]
              omega
            · rw [hrest, List.drop_append_of_le_length (by rw [List.length_drop]; omega)]
              unfold restOf
              rw [hgetd, List.drop_drop]
        · have hlt : (slices.get ⟨slice, hs⟩).length - byte < cnt := by omega
          have hrem : cnt - ((slices.get ⟨slice, hs⟩).length - byte) < cnt := by omega
          have step : NonContiguousBuffer.advanceLoop (fuel + 1) slices slice byte cnt =
              NonContiguousBuffer.advanceLoop fuel slices (slice + 1) 0
                (cnt - ((slices.get ⟨slice, hs⟩).length - byte)) := by
            rw [NonContiguousBuffer.advanceLoop, if_neg hz, dif_pos hs, if_neg (by omega)]
          have hres : restOf slices (slice + 1) 0 =
              (restOf slices slice byte).drop ((slices.get ⟨slice, hs⟩).length - byte) := by
            rw [restOf_next slices slice byte hs, ← hrest]
          have hlen2 : cnt - ((slices.get ⟨slice, hs⟩).length - byte) ≤
              (restOf slices (slice + 1) 0).length := by
            rw [hres, List.length_drop]
            omega
          obtain ⟨s2, b2, heq2, hle2, hb2, hr2⟩ :=
            ih (cnt - ((slices.get ⟨slice, hs⟩).length - byte)) hrem fuel (slice + 1) 0
              (by omega) (by omega) hnext0 hlen2
          refine ⟨s2, b2, ?_, hle2, hb2, ?_⟩
          · rw [step, heq2]
          · rw [hr2, hres, List.drop_drop]
            congr 1
            omega

theorem advanceLoop_none (slices : List (List Nat)) (hne : ∀ c ∈ slices, c ≠ []) :
    ∀ cnt fuel slice byte, slices.length - slice < fuel →
    slice ≤ slices.length →
    (∀ h : slice < slices.length, byte < (slices.get ⟨slice, h⟩).length) →
    (restOf slices slice byte).length < cnt →
    NonContiguousBuffer.advanceLoop fuel slices slice byte cnt = none := by
  intro cnt
  induction cnt using Nat.strong_induction_on with
  | _ cnt ih =>
    intro fuel slice byte hfuel hsle hbyte hcnt
    match fuel with
    | fuel + 1 =>
      have hz : cnt ≠ 0 := by omega
      rcases Nat.eq_or_lt_of_le hsle with he | hs
      · rw [NonContiguousBuffer.advanceLoop, if_neg hz, dif_neg (by omega)]
      · have hb := hbyte hs
        have hgetd : slices.getD slice [] = slices.get ⟨slice, hs⟩ := by
          rw [List.getD_eq_getElem?_getD, List.getElem?_eq_getElem hs]
          rfl
        have hrest : restOf slices slice byte =
            (slices.get ⟨slice, hs⟩).drop byte ++ (slices.drop (slice + 1)).flatten := by
          unfold restOf
          rw [hgetd]
        have hrlen : (restOf slices slice byte).length =
            ((slices.get ⟨slice, hs⟩).length - byte) +
              (slices.drop (slice + 1)).flatten.length := by
          rw [hrest, List.length_append, List.length_drop]
        have hnext0 : ∀ h : slice + 1 < slices.length,
            0 < (slices.get ⟨slice + 1, h⟩).length := by
          intro h
          have hmem := hne (slices.get ⟨slice + 1, h⟩) (List.get_mem slices _ _)
          cases hc : slices.get ⟨slice + 1, h⟩ with
          | nil => exact absurd hc hmem
          | cons a l => simp [hc]
        have hge : ¬((slices.get ⟨slice, hs⟩).length - byte ≥ cnt) := by omega
        rw [NonContiguousBuffer.advanceLoop, if_neg hz, dif_pos hs, if_neg hge]
        have hres : restOf slices (slice + 1) 0 =
            (restOf slices slice byte).drop ((slices.get ⟨slice, hs⟩).length - byte) := by
          rw [restOf_next slices slice byte hs, ← hrest]
        exact ih (cnt - ((slices.get ⟨slice, hs⟩).length - byte)) (by omega) fuel
          (slice + 1) 0 (by omega) (by omega) hnext0
          (by rw [hres, List.length_drop]; omega)

theorem NonContiguousBuffer.advance_ok (b : NonContiguousBuffer) (cnt : Nat)
    (hInv : b.Inv) (h : cnt ≤ b.rest.length) :
    ∃ b', b.advance cnt = some b' ∧ b'.Inv ∧ b'.slices = b.slices ∧
      b'.rest = b.rest.drop cnt := by
  obtain ⟨hne, hsle, hbyte⟩ := hInv
  obtain ⟨s2, b2, heq, hle2, hb2, hr2⟩ :=
    advanceLoop_ok b.slices hne cnt (b.slices.length + 1) b.slice b.byte
      (by omega) hsle hbyte h
  exact ⟨⟨b.slices, s2, b2⟩, by rw [NonContiguousBuffer.advance, heq]; rfl,
    ⟨hne, hle2, hb2⟩, rfl, hr2⟩

theorem NonContiguousBuffer.advance_none (b : NonContiguousBuffer) (cnt : Nat)
    (hInv : b.Inv) (h : b.rest.length < cnt) : b.advance cnt = none := by
  obtain ⟨hne, hsle, hbyte⟩ := hInv
  rw [NonContiguousBuffer.advance,
    advanceLoop_none b.slices hne cnt (b.slices.length + 1) b.slice b.byte
      (by omega) hsle hbyte h]
  rfl

theorem NonContiguousBuffer.chunk_append_rest (b : NonContiguousBuffer)
    (hInv : b.Inv) : b.rest = b.chunk ++ (b.slices.drop (b.slice + 1)).flatten :=
  rest_eq_chunk_append b hInv.2.1

theorem NonContiguousBuffer.chunk_nil_iff (b : NonContiguousBuffer)
    (hInv : b.Inv) : b.chunk = [] ↔ b.rest = [] := by
  obtain ⟨hne, hsle, hbyte⟩ := hInv
  constructor
  · intro hc
    rcases Nat.eq_or_lt_of_le hsle with he | hs
    · unfold NonContiguousBuffer.rest
      rw [he, restOf_exhausted]
    · exfalso
      unfold NonContiguousBuffer.chunk at hc
      rw [if_neg (by omega)] at hc
      have hgetd : b.slices.getD b.slice [] = b.slices.get ⟨b.slice, hs⟩ := by
        rw [List.getD_eq_getElem?_getD, List.getElem?_eq_getElem hs]
        rfl
      rw [hgetd] at hc
      have := congrArg List.length hc
      rw [List.length_drop] at this
      have := hbyte hs
      simp at *
      omega
  · intro hr
    have h2 := rest_eq_chunk_append b hsle
    rw [hr] at h2
    exact (List.append_eq_nil.mp h2.symm).1

theorem NonContiguousBuffer.remaining_rest (b : NonContiguousBuffer)
    (hInv : b.Inv) : b.remaining = b.rest.length :=
  remaining_eq_rest_length b hInv.2.1

theorem copyLoop_ok :
    ∀ fuel need (b : NonContiguousBuffer), b.Inv → need ≤ b.rest.length →
    need < fuel →
    ∃ b', NonContiguousBuffer.copyLoop b need fuel = some (b.rest.take need, b') ∧
      b'.Inv ∧ b'.slices = b.slices ∧ b'.rest = b.rest.drop need := by
  intro fuel
  induction fuel with
  | zero => intro need b _ _ h; omega
  | succ fuel ih =>
    intro need b hInv hlen hfuel
    by_cases hz : need = 0
    · subst hz
      exact ⟨b, by rw [NonContiguousBuffer.copyLoop, if_pos rfl]; rfl, hInv, rfl,
        by rw [List.drop_zero]⟩
    · have hrne : b.rest ≠ [] := by
        intro hr
        rw [hr] at hlen
        simp at hlen
        omega
      have hcne : b.chunk ≠ [] := fun hc =>
        hrne ((NonContiguousBuffer.chunk_nil_iff b hInv).mp hc)
      have hclen : 0 < b.chunk.length := List.length_pos.mpr hcne
      have hcnt1 : 1 ≤ min b.chunk.length need := by omega
      have hcntle : min b.chunk.length need ≤ b.rest.length := by omega
      obtain ⟨b1, hadv, hInv1, hsl1, hr1⟩ :=
        NonContiguousBuffer.advance_ok b (min b.chunk.length need) hInv hcntle
      have hlen1 : need - min b.chunk.length need ≤ b1.rest.length := by
        rw [hr1, List.length_drop]
        omega
      obtain ⟨b2, hloop, hInv2, hsl2, hr2⟩ :=
        ih (need - min b.chunk.length need) b1 hInv1 hlen1 (by omega)
      refine ⟨b2, ?_, hInv2, by rw [hsl2, hsl1], ?_⟩
      · simp only [NonContiguousBuffer.copyLoop, if_neg hz, hadv, hloop]
        have htk : b.chunk.take (min b.chunk.length need) =
            b.rest.take (min b.chunk.length need) := by
          rw [NonContiguousBuffer.chunk_append_rest b hInv,
            List.take_append_of_le_length (by omega)]
        rw [htk, hr1, ← List.take_add]
        have harith : min b.chunk.length need + (need - min b.chunk.length need) =
            need := by omega
        rw [harith]
      · rw [hr2, hr1, List.drop_drop]
        have harith : min b.chunk.length need + (need - min b.chunk.length need) =
            need := by omega
        rw [harith]

theorem NonContiguousBuffer.copy_to_slice_ok (b : NonContiguousBuffer) (n : Nat)
    (hInv : b.Inv) (h : n ≤ b.rest.length) :
    ∃ b', b.copy_to_slice n = some (b.rest.take n, b') ∧ b'.Inv ∧
      b'.slices = b.slices ∧ b'.rest = b.rest.drop n := by
  obtain ⟨b', hl, hInv', hsl, hr⟩ := copyLoop_ok (n + 1) n b hInv h (by omega)
  refine ⟨b', ?_, hInv', hsl, hr⟩
  rw [NonContiguousBuffer.copy_to_slice,
    if_pos (by rw [NonContiguousBuffer.remaining_rest b hInv]; exact h), hl]

theorem NonContiguousBuffer.copy_to_slice_none (b : NonContiguousBuffer) (n : Nat)
    (h : b.remaining < n) : b.copy_to_slice n = none := by
  rw [NonContiguousBuffer.copy_to_slice, if_neg (by omega)]

theorem NonContiguousBuffer.copy_to_bytes_ok (b : NonContiguousBuffer) (n : Nat)
    (hInv : b.Inv) (h : n ≤ b.rest.length) :
    ∃ b', b.copy_to_bytes n = some (b.rest.take n, b') ∧ b'.Inv ∧
      b'.slices = b.slices ∧ b'.rest = b.rest.drop n :=
  NonContiguousBuffer.copy_to_slice_ok b n hInv h

theorem NonContiguousBuffer.copy_to_bytes_none (b : NonContiguousBuffer) (n : Nat)
    (h : b.remaining < n) : b.copy_to_bytes n = none :=
  NonContiguousBuffer.copy_to_slice_none b n h

theorem NonContiguousBuffer.get_u8_ok (b : NonContiguousBuffer) (x : Nat)
    (xs : List Nat) (hInv : b.Inv) (h : b.rest = x :: xs) :
    ∃ b', b.get_u8 = some (x, b') ∧ b'.Inv ∧ b'.slices = b.slices ∧
      b'.rest = xs := by
  have hcne : b.chunk ≠ [] := by
    intro hc
    rw [(NonContiguousBuffer.chunk_nil_iff b hInv).mp hc] at h
    exact List.noConfusion h
  obtain ⟨b1, hadv, hInv1, hsl1, hr1⟩ :=
    NonContiguousBuffer.advance_ok b 1 hInv (by rw [h]; simp)
  match hc : b.chunk with
  | [] => exact absurd hc hcne
  | c :: cs =>
    have hcx : c = x := by
      have := NonContiguousBuffer.chunk_append_rest b hInv
      rw [hc, h] at this
      exact (List.cons.injEq _ _ _ _ ▸ this).1.symm
    refine ⟨b1, ?_, hInv1, hsl1, by rw [hr1, h, List.drop_one]; rfl⟩
    rw [NonContiguousBuffer.get_u8, hc, hadv]
    rw [hcx]
    rfl

theorem NonContiguousBuffer.get_u8_none (b : NonContiguousBuffer)
    (hInv : b.Inv) (h : b.rest = []) : b.get_u8 = none := by
  have hc : b.chunk = [] := (NonContiguousBuffer.chunk_nil_iff b hInv).mpr h
  rw [NonContiguousBuffer.get_u8, hc,
    NonContiguousBuffer.copy_to_slice_none b 1
      (by rw [NonContiguousBuffer.remaining_rest b hInv, h]; simp)]
  rfl

theorem NonContiguousBuffer.get_u16_ok (b : NonContiguousBuffer) (x y : Nat)
    (xs : List Nat) (hInv : b.Inv) (h : b.rest = x :: y :: xs) :
    ∃ b', b.get_u16 = some (x * 256 + y, b') ∧ b'.Inv ∧ b'.slices = b.slices ∧
      b'.rest = xs := by
  have hch := NonContiguousBuffer.chunk_append_rest b hInv
  have hcne : b.chunk ≠ [] := by
    intro hc
    rw [(NonContiguousBuffer.chunk_nil_iff b hInv).mp hc] at h
    exact List.noConfusion h
  match hc : b.chunk with
  | [] => exact absurd hc hcne
  | [c] =>
    have hcx : c = x := by
      rw [hc, h] at hch
      exact (List.cons.injEq _ _ _ _ ▸ hch).1.symm
    obtain ⟨b1, hcp, hInv1, hsl1, hr1⟩ :=
      NonContiguousBuffer.copy_to_slice_ok b 2 hInv (by rw [h]; simp)
    refine ⟨b1, ?_, hInv1, hsl1, by rw [hr1, h]; rfl⟩
    rw [NonContiguousBuffer.get_u16, hc, hcp]
    rw [h]
    rfl
  | c0 :: c1 :: cs =>
    have hcxy : c0 = x ∧ c1 = y := by
      rw [hc, h] at hch
      have h0 := (List.cons.injEq _ _ _ _ ▸ hch).1
      have h1 := (List.cons.injEq _ _ _ _ ▸ (List.cons.injEq _ _ _ _ ▸ hch).2).1
      exact ⟨h0.symm, h1.symm⟩
    obtain ⟨b1, hadv, hInv1, hsl1, hr1⟩ :=
      NonContiguousBuffer.advance_ok b 2 hInv (by rw [h]; simp)
    refine ⟨b1, ?_, hInv1, hsl1, by rw [hr1, h]; rfl⟩
    rw [NonContiguousBuffer.get_u16, hc, hadv, hcxy.1, hcxy.2]
    rfl

theorem NonContiguousBuffer.get_u16_none (b : NonContiguousBuffer)
    (hInv : b.Inv) (h : b.rest.length < 2) : b.get_u16 = none := by
  have hch := NonContiguousBuffer.chunk_append_rest b hInv
  have hrem : b.remaining < 2 := by
    rw [NonContiguousBuffer.remaining_rest b hInv]
    exact h
  have hclen : b.chunk.length < 2 := by
    have := congrArg List.length hch
    rw [List.length_append] at this
    omega
  match hc : b.chunk with
  | [] =>
    rw [NonContiguousBuffer.get_u16, hc,
      NonContiguousBuffer.copy_to_slice_none b 2 hrem]
    rfl
  | [c] =>
    rw [NonContiguousBuffer.get_u16, hc,
      NonContiguousBuffer.copy_to_slice_none b 2 hrem]
    rfl
  | c0 :: c1 :: cs =>
    rw [hc] at hclen
    exact absurd hclen (by simp)

/-- Flat counterpart of `advance`: drop `n` bytes, failing like the cursor
does when fewer than `n` bytes remain. -/
def dropE (n : Nat) (l : List Nat) : Option (List Nat) :=
  if n ≤ l.length then some (l.drop n) else none

/-- Flat counterpart of `get_u8`. -/
def readU8F : List Nat → Option (Nat × List Nat)
  | [] => none
  | x :: xs => some (x, xs)

/-- Flat counterpart of `get_u16` (big endian). -/
def readU16F : List Nat → Option (Nat × List Nat)
  | x :: y :: xs => some (x * 256 + y, xs)
  | _ => none

/-- Flat counterpart of `copy_to_bytes`. -/
def takeE (n : Nat) (l : List Nat) : Option (List Nat × List Nat) :=
  if n ≤ l.length then some (l.take n, l.drop n) else none

/-- Flat counterpart of the `ClientHello::from_bytes` extension loop. -/
def ClientHello.extLoopFlat (fuel : Nat) (l : List Nat)
    (sni alpn : Option (List Nat)) : Option ClientHello :=
  match fuel with
  | 0 => none
  | fuel + 1 =>
    if 0 < l.length then
      match readU16F l with
      | none => none
      | some (extension_type, l) =>
        match readU16F l with
        | none => none
        | some (extension_payload_length, l) =>
          if extension_type = 16 then
            match takeE extension_payload_length l with
            | none => none
            | some (payload, l) => ClientHello.extLoopFlat fuel l sni (some payload)
          else if extension_type = 0 then
            match takeE extension_payload_length l with
            | none => none
            | some (payload, l) => ClientHello.extLoopFlat fuel l (some payload) alpn
          else
            match dropE extension_payload_length l with
            | none => none
            | some l => ClientHello.extLoopFlat fuel l sni alpn
    else some ⟨sni, alpn⟩

theorem extLoop_eq_flat :
    ∀ fuel (b : NonContiguousBuffer) (sni alpn : Option (List Nat)), b.Inv →
    ClientHello.extLoop fuel b sni alpn =
      ClientHello.extLoopFlat fuel b.rest sni alpn := by
  intro fuel
  induction fuel with
  | zero => intro b sni alpn _; rfl
  | succ fuel ih =>
    intro b sni alpn hInv
    rw [ClientHello.extLoop, ClientHello.extLoopFlat]
    have hrem : b.has_remaining = decide (0 < b.rest.length) := by
      rw [NonContiguousBuffer.has_remaining,
        NonContiguousBuffer.remaining_rest b hInv]
    by_cases hpos : 0 < b.rest.length
    · rw [if_pos (by rw [hrem]; exact decide_eq_true hpos), if_pos hpos]
      match hr : b.rest with
      | [] => exact absurd hpos (by rw [hr]; simp)
      | [x] =>
        rw [NonContiguousBuffer.get_u16_none b hInv (by rw [hr]; simp)]
        rfl
      | x :: y :: xs =>
        obtain ⟨b1, hg, hInv1, hsl1, hr1⟩ :=
          NonContiguousBuffer.get_u16_ok b x y xs hInv hr
        simp only [hg, readU16F]
        match hxs : xs with
        | [] =>
          rw [NonContiguousBuffer.get_u16_none b1 hInv1 (by rw [hr1]; simp)]
        | [z] =>
          rw [NonContiguousBuffer.get_u16_none b1 hInv1 (by rw [hr1]; simp)]
        | z :: w :: zs =>
          obtain ⟨b2, hg2, hInv2, hsl2, hr2⟩ :=
            NonContiguousBuffer.get_u16_ok b1 z w zs hInv1 hr1
          simp only [hg2, readU16F]
          by_cases h16 : x * 256 + y = 16
          · rw [if_pos h16, if_pos h16]
            by_cases hle : z * 256 + w ≤ zs.length
            · obtain ⟨b3, hcp, hInv3, hsl3, hr3⟩ :=
                NonContiguousBuffer.copy_to_bytes_ok b2 (z * 256 + w) hInv2
                  (by rw [hr2]; exact hle)
              have htk : takeE (z * 256 + w) zs =
                  some (zs.take (z * 256 + w), zs.drop (z * 256 + w)) := by
                rw [takeE, if_pos hle]
              simp only [hcp, htk]
              rw [ih b3 _ _ hInv3, hr3, hr2]
            · have htk : takeE (z * 256 + w) zs = none := by
                rw [takeE, if_neg hle]
              rw [NonContiguousBuffer.copy_to_bytes_none b2 (z * 256 + w)
                  (by rw [NonContiguousBuffer.remaining_rest b2 hInv2, hr2]; omega)]
              rw [htk]
          · rw [if_neg h16, if_neg h16]
            by_cases h0 : x * 256 + y = 0
            · rw [if_pos h0, if_pos h0]
              by_cases hle : z * 256 + w ≤ zs.length
              · obtain ⟨b3, hcp, hInv3, hsl3, hr3⟩ :=
                  NonContiguousBuffer.copy_to_bytes_ok b2 (z * 256 + w) hInv2
                    (by rw [hr2]; exact hle)
                have htk : takeE (z * 256 + w) zs =
                    some (zs.take (z * 256 + w), zs.drop (z * 256 + w)) := by
                  rw [takeE, if_pos hle]
                simp only [hcp, htk]
                rw [ih b3 _ _ hInv3, hr3, hr2]
              · have htk : takeE (z * 256 + w) zs = none := by
                  rw [takeE, if_neg hle]
                rw [NonContiguousBuffer.copy_to_bytes_none b2 (z * 256 + w)
                    (by rw [NonContiguousBuffer.remaining_rest b2 hInv2, hr2]; omega)]
                rw [htk]
            · rw [if_neg h0, if_neg h0]
              by_cases hle : z * 256 + w ≤ zs.length
              · obtain ⟨b3, hadv, hInv3, hsl3, hr3⟩ :=
                  NonContiguousBuffer.advance_ok b2 (z * 256 + w) hInv2
                    (by rw [hr2]; exact hle)
                have hdr : dropE (z * 256 + w) zs = some (zs.drop (z * 256 + w)) := by
                  rw [dropE, if_pos hle]
                simp only [hadv, hdr]
                rw [ih b3 _ _ hInv3, hr3, hr2]
              · have hdr : dropE (z * 256 + w) zs = none := by
                  rw [dropE, if_neg hle]
                rw [NonContiguousBuffer.advance_none b2 (z * 256 + w) hInv2
                    (by rw [hr2]; omega)]
                rw [hdr]
    · rw [if_neg (by rw [hrem]; simpa using hpos), if_neg hpos]

theorem bind_advance_eq (b : NonContiguousBuffer) (l : List Nat) (n : Nat)
    (hInv : b.Inv) (hr : b.rest = l)
    (k : NonContiguousBuffer → Option ClientHello)
    (kf : List Nat → Option ClientHello)
    (hk : ∀ b', b'.Inv → b'.rest = l.drop n → k b' = kf (l.drop n)) :
    (b.advance n >>= k) = (dropE n l >>= kf) := by
  by_cases h : n ≤ l.length
  · obtain ⟨b', hadv, hInv', hsl, hrr⟩ :=
      NonContiguousBuffer.advance_ok b n hInv (by rw [hr]; exact h)
    rw [hadv, dropE, if_pos h]
    exact hk b' hInv' (by rw [hrr, hr])
  · rw [NonContiguousBuffer.advance_none b n hInv (by rw [hr]; omega),
      dropE, if_neg h]
    rfl

theorem bind_get_u8_eq (b : NonContiguousBuffer) (l : List Nat)
    (hInv : b.Inv) (hr : b.rest = l)
    (k : Nat × NonContiguousBuffer → Option ClientHello)
    (kf : Nat × List Nat → Option ClientHello)
    (hk : ∀ v ls b', b'.Inv → b'.rest = ls → l = v :: ls →
      k (v, b') = kf (v, ls)) :
    (b.get_u8 >>= k) = (readU8F l >>= kf) := by
  match hl : l with
  | [] =>
    rw [NonContiguousBuffer.get_u8_none b hInv (by rw [hr])]
    rfl
  | v :: ls =>
    obtain ⟨b', hget, hInv', hsl, hrr⟩ :=
      NonContiguousBuffer.get_u8_ok b v ls hInv (by rw [hr])
    rw [hget]
    exact hk v ls b' hInv' hrr rfl

theorem bind_get_u16_eq (b : NonContiguousBuffer) (l : List Nat)
    (hInv : b.Inv) (hr : b.rest = l)
    (k : Nat × NonContiguousBuffer → Option ClientHello)
    (kf : Nat × List Nat → Option ClientHello)
    (hk : ∀ v w ls b', b'.Inv → b'.rest = ls → l = v :: w :: ls →
      k (v * 256 + w, b') = kf (v * 256 + w, ls)) :
    (b.get_u16 >>= k) = (readU16F l >>= kf) := by
  match hl : l with
  | [] =>
    rw [NonContiguousBuffer.get_u16_none b hInv (by rw [hr]; simp)]
    rfl
  | [v] =>
    rw [NonContiguousBuffer.get_u16_none b hInv (by rw [hr]; simp)]
    rfl
  | v :: w :: ls =>
    obtain ⟨b', hget, hInv', hsl, hrr⟩ :=
      NonContiguousBuffer.get_u16_ok b v w ls hInv (by rw [hr])
    rw [hget]
    exact hk v w ls b' hInv' hrr rfl

/-- Flat counterpart of `ClientHello::from_bytes`: the same parse over the
flattened byte stream. -/
def ClientHello.fromBytesFlat (l : List Nat) : Option ClientHello := do
  let l ← dropE 2 l
  let l ← dropE 32 l
  let (session_length, l) ← readU8F l
  let l ← dropE session_length l
  let (cipher_suite_length, l) ← readU16F l
  let l ← dropE cipher_suite_length l
  let (compression_length, l) ← readU8F l
  let l ← dropE compression_length l
  let (_extension_length, l) ← readU16F l
  ClientHello.extLoopFlat (l.length + 1) l none none

theorem new_Inv (chunks : List (List Nat)) (hne : ∀ c ∈ chunks, c ≠ []) :
    (NonContiguousBuffer.new chunks).Inv := by
  refine ⟨hne, Nat.zero_le _, ?_⟩
  intro h
  exact List.length_pos.mpr (hne _ (List.get_mem chunks _ _))

theorem new_rest (chunks : List (List Nat)) :
    (NonContiguousBuffer.new chunks).rest = chunks.flatten := by
  show restOf chunks 0 0 = chunks.flatten
  unfold restOf
  rw [List.drop_zero, ← flatten_drop_succ chunks 0, List.drop_zero]

theorem from_bytes_eq_flat (chunks : List (List Nat))
    (hne : ∀ c ∈ chunks, c ≠ []) :
    ClientHello.from_bytes chunks = ClientHello.fromBytesFlat chunks.flatten := by
  rw [ClientHello.from_bytes, ClientHello.fromBytesFlat]
  refine bind_advance_eq _ _ 2 (new_Inv chunks hne) (new_rest chunks) _ _ ?_
  intro b1 hInv1 hr1
  refine bind_advance_eq _ _ 32 hInv1 hr1 _ _ ?_
  intro b2 hInv2 hr2
  refine bind_get_u8_eq _ _ hInv2 hr2 _ _ ?_
  intro sl ls3 b3 hInv3 hr3 _
  refine bind_advance_eq _ _ sl hInv3 hr3 _ _ ?_
  intro b4 hInv4 hr4
  refine bind_get_u16_eq _ _ hInv4 hr4 _ _ ?_
  intro cv cw ls5 b5 hInv5 hr5 _
  refine bind_advance_eq _ _ (cv * 256 + cw) hInv5 hr5 _ _ ?_
  intro b6 hInv6 hr6
  refine bind_get_u8_eq _ _ hInv6 hr6 _ _ ?_
  intro cl ls7 b7 hInv7 hr7 _
  refine bind_advance_eq _ _ cl hInv7 hr7 _ _ ?_
  intro b8 hInv8 hr8
  refine bind_get_u16_eq _ _ hInv8 hr8 _ _ ?_
  intro e1 e2 ls9 b9 hInv9 hr9 _
  show ClientHello.extLoop (b9.remaining + 1) b9 none none =
    ClientHello.extLoopFlat (ls9.length + 1) ls9 none none
  rw [extLoop_eq_flat _ b9 none none hInv9,
    NonContiguousBuffer.remaining_rest b9 hInv9, hr9]

/-- The cursor operations the spec quantifies over: skip, scalar reads and
materialize. -/
inductive CursorOp
  | advanceBy (n : Nat)
  | readU8
  | readU16
  | materialize (n : Nat)
deriving DecidableEq

/-- Bytes consumed by one cursor operation. -/
def CursorOp.cost : CursorOp → Nat
  | .advanceBy n => n
  | .readU8 => 1
  | .readU16 => 2
  | .materialize n => n

/-- Run a sequence of cursor operations, collecting each operation's output:
`advance` yields `[]`, a scalar read yields its one decoded value,
`materialize` yields the copied bytes. `none` models a panic. -/
def runOps (b : NonContiguousBuffer) : List CursorOp → Option (List (List Nat))
  | [] => some []
  | op :: ops =>
    match op with
    | .advanceBy n =>
      match b.advance n with
      | none => none
      | some b1 => (runOps b1 ops).map fun rs => [] :: rs
    | .readU8 =>
      match b.get_u8 with
      | none => none
      | some (v, b1) => (runOps b1 ops).map fun rs => [v] :: rs
    | .readU16 =>
      match b.get_u16 with
      | none => none
      | some (v, b1) => (runOps b1 ops).map fun rs => [v] :: rs
    | .materialize n =>
      match b.copy_to_bytes n with
      | none => none
      | some (p, b1) => (runOps b1 ops).map fun rs => p :: rs

/-- Reference semantics of `runOps` over the flattened byte stream. -/
def runOpsFlat (l : List Nat) : List CursorOp → Option (List (List Nat))
  | [] => some []
  | op :: ops =>
    match op with
    | .advanceBy n =>
      match dropE n l with
      | none => none
      | some l1 => (runOpsFlat l1 ops).map fun rs => [] :: rs
    | .readU8 =>
      match readU8F l with
      | none => none
      | some (v, l1) => (runOpsFlat l1 ops).map fun rs => [v] :: rs
    | .readU16 =>
      match readU16F l with
      | none => none
      | some (v, l1) => (runOpsFlat l1 ops).map fun rs => [v] :: rs
    | .materialize n =>
      match takeE n l with
      | none => none
      | some p => (runOpsFlat p.2 ops).map fun rs => p.1 :: rs

theorem runOps_eq_flat :
    ∀ ops (b : NonContiguousBuffer), b.Inv → runOps b ops = runOpsFlat b.rest ops := by
  intro ops
  induction ops with
  | nil => intro b _; rfl
  | cons op ops ih =>
    intro b hInv
    cases op with
    | advanceBy n =>
      by_cases h : n ≤ b.rest.length
      · obtain ⟨b1, hadv, hInv1, hsl, hr1⟩ :=
          NonContiguousBuffer.advance_ok b n hInv h
        have hd : dropE n b.rest = some (b.rest.drop n) := by rw [dropE, if_pos h]
        simp only [runOps, runOpsFlat, hadv, hd]
        rw [ih b1 hInv1, hr1]
      · have hd : dropE n b.rest = none := by rw [dropE, if_neg h]
        simp only [runOps, runOpsFlat,
          NonContiguousBuffer.advance_none b n hInv (by omega), hd]
    | readU8 =>
      match hr : b.rest with
      | [] =>
        simp only [runOps, runOpsFlat, readU8F,
          NonContiguousBuffer.get_u8_none b hInv hr]
      | v :: ls =>
        obtain ⟨b1, hget, hInv1, hsl, hr1⟩ :=
          NonContiguousBuffer.get_u8_ok b v ls hInv hr
        simp only [runOps, runOpsFlat, readU8F, hget]
        rw [ih b1 hInv1, hr1]
    | readU16 =>
      match hr : b.rest with
      | [] =>
        simp only [runOps, runOpsFlat, readU16F,
          NonContiguousBuffer.get_u16_none b hInv (by rw [hr]; simp)]
      | [v] =>
        simp only [runOps, runOpsFlat, readU16F,
          NonContiguousBuffer.get_u16_none b hInv (by rw [hr]; simp)]
      | v :: w :: ls =>
        obtain ⟨b1, hget, hInv1, hsl, hr1⟩ :=
          NonContiguousBuffer.get_u16_ok b v w ls hInv hr
        simp only [runOps, runOpsFlat, readU16F, hget]
        rw [ih b1 hInv1, hr1]
    | materialize n =>
      by_cases h : n ≤ b.rest.length
      · obtain ⟨b1, hcp, hInv1, hsl, hr1⟩ :=
          NonContiguousBuffer.copy_to_bytes_ok b n hInv h
        have ht : takeE n b.rest = some (b.rest.take n, b.rest.drop n) := by
          rw [takeE, if_pos h]
        simp only [runOps, runOpsFlat, hcp, ht]
        rw [ih b1 hInv1, hr1]
      · have ht : takeE n b.rest = none := by rw [takeE, if_neg h]
        simp only [runOps, runOpsFlat,
          NonContiguousBuffer.copy_to_bytes_none b n
            (by rw [NonContiguousBuffer.remaining_rest b hInv]; omega), ht]

/-- Big-endian 2-byte encoding of a 16-bit value. -/
def u16be (n : Nat) : List Nat := [n / 256 % 256, n % 256]

/-- Wire encoding of one extension entry: 2-byte type, 2-byte payload
length, then the payload. -/
def serializeExt (e : Nat × List Nat) : List Nat :=
  u16be e.1 ++ u16be e.2.length ++ e.2

/-- Wire encoding of an extension list. -/
def serializeExts (es : List (Nat × List Nat)) : List Nat :=
  (es.map serializeExt).flatten

/-- What the extension loop computes on a well-formed extension list,
starting from the given accumulators: the last ALPN (tag 16) payload and the
last SNI (tag 0) payload seen. -/
def foldExts : List (Nat × List Nat) → Option (List Nat) → Option (List Nat) →
    ClientHello
  | [], sni, alpn => ⟨sni, alpn⟩
  | (t, p) :: es, sni, alpn =>
    if t = 16 then foldExts es sni (some p)
    else if t = 0 then foldExts es (some p) alpn
    else foldExts es sni alpn

theorem extLoopFlat_serialize :
    ∀ es (sni alpn : Option (List Nat)) fuel, es.length < fuel →
    (∀ e ∈ es, e.1 < 65536 ∧ e.2.length < 65536) →
    ClientHello.extLoopFlat fuel (serializeExts es) sni alpn =
      some (foldExts es sni alpn) := by
  intro es
  induction es with
  | nil =>
    intro sni alpn fuel hf _
    match fuel with
    | f + 1 =>
      rw [ClientHello.extLoopFlat]
      simp [serializeExts, foldExts]
  | cons e es ih =>
    intro sni alpn fuel hf hb
    obtain ⟨t, p⟩ := e
    have hbt := hb (t, p) (List.mem_cons_self _ _)
    have hbtl : ∀ e ∈ es, e.1 < 65536 ∧ e.2.length < 65536 :=
      fun e he => hb e (List.mem_cons_of_mem _ he)
    match fuel with
    | f + 1 =>
      have hser : serializeExts ((t, p) :: es) =
          (t / 256 % 256) :: (t % 256) :: (p.length / 256 % 256) ::
            (p.length % 256) :: (p ++ serializeExts es) := by
        simp [serializeExts, serializeExt, u16be]
      rw [ClientHello.extLoopFlat, hser, if_pos (by simp)]
      simp only [readU16F]
      have hbt1 : t < 65536 := by simpa using hbt.1
      have hbt2 : p.length < 65536 := by simpa using hbt.2
      have htv : t / 256 % 256 * 256 + t % 256 = t := by omega
      have hpv : p.length / 256 % 256 * 256 + p.length % 256 = p.length := by omega
      rw [htv, hpv]
      have htk : takeE p.length (p ++ serializeExts es) =
          some (p, serializeExts es) := by
        rw [takeE, if_pos (by simp)]
        rw [List.take_left, List.drop_left]
      have hdp : dropE p.length (p ++ serializeExts es) =
          some (serializeExts es) := by
        rw [dropE, if_pos (by simp)]
        rw [List.drop_left]
      rw [foldExts]
      by_cases h16 : t = 16
      · rw [if_pos h16, if_pos h16]
        simp only [htk]
        exact ih sni (some p) f (by simp at hf; omega) hbtl
      · rw [if_neg h16, if_neg h16]
        by_cases h0 : t = 0
        · rw [if_pos h0, if_pos h0]
          simp only [htk]
          exact ih (some p) alpn f (by simp at hf; omega) hbtl
        · rw [if_neg h0, if_neg h0]
          simp only [hdp]
          exact ih sni alpn f (by simp at hf; omega) hbtl

theorem foldExts_sni_stable :
    ∀ es (p0 : List Nat) (a : Option (List Nat)),
    (∀ p, (0, p) ∈ es → p = p0) →
    (foldExts es (some p0) a).sni = some p0 := by
  intro es
  induction es with
  | nil => intro p0 a _; rfl
  | cons e es ih =>
    intro p0 a hset
    obtain ⟨t, p⟩ := e
    have hsetl : ∀ p, (0, p) ∈ es → p = p0 :=
      fun p hp => hset p (List.mem_cons_of_mem _ hp)
    rw [foldExts]
    by_cases h16 : t = 16
    · rw [if_pos h16]
      exact ih p0 (some p) hsetl
    · rw [if_neg h16]
      by_cases h0 : t = 0
      · rw [if_pos h0]
        have hp : p = p0 := hset p (h0 ▸ List.mem_cons_self _ _)
        rw [hp]
        exact ih p0 a hsetl
      · rw [if_neg h0]
        exact ih p0 a hsetl

theorem foldExts_sni_found :
    ∀ es (p0 : List Nat) (s a : Option (List Nat)),
    (0, p0) ∈ es → (∀ p, (0, p) ∈ es → p = p0) →
    (foldExts es s a).sni = some p0 := by
  intro es
  induction es with
  | nil => intro p0 s a hm _; exact absurd hm (List.not_mem_nil _)
  | cons e es ih =>
    intro p0 s a hm hset
    obtain ⟨t, p⟩ := e
    have hsetl : ∀ p, (0, p) ∈ es → p = p0 :=
      fun p hp => hset p (List.mem_cons_of_mem _ hp)
    rw [foldExts]
    by_cases h0 : t = 0
    · have hp : p = p0 := hset p (by rw [h0]; exact List.mem_cons_self _ _)
      rw [if_neg (by omega), if_pos h0, hp]
      exact foldExts_sni_stable es p0 a hsetl
    · have hmt : (0, p0) ∈ es := by
        rcases List.mem_cons.mp hm with he | he
        · exact absurd (Prod.mk.injEq _ _ _ _ ▸ he).1.symm h0
        · exact he
      by_cases h16 : t = 16
      · rw [if_pos h16]
        exact ih p0 s (some p) hmt hsetl
      · rw [if_neg h16, if_neg h0]
        exact ih p0 s a hmt hsetl

theorem foldExts_alpn_stable :
    ∀ es (p0 : List Nat) (s : Option (List Nat)),
    (∀ p, (16, p) ∈ es → p = p0) →
    (foldExts es s (some p0)).alpn = some p0 := by
  intro es
  induction es with
  | nil => intro p0 s _; rfl
  | cons e es ih =>
    intro p0 s hset
    obtain ⟨t, p⟩ := e
    have hsetl : ∀ p, (16, p) ∈ es → p = p0 :=
      fun p hp => hset p (List.mem_cons_of_mem _ hp)
    rw [foldExts]
    by_cases h16 : t = 16
    · rw [if_pos h16]
      have hp : p = p0 := hset p (h16 ▸ List.mem_cons_self _ _)
      rw [hp]
      exact ih p0 s hsetl
    · rw [if_neg h16]
      by_cases h0 : t = 0
      · rw [if_pos h0]
        exact ih p0 (some p) hsetl
      · rw [if_neg h0]
        exact ih p0 s hsetl

theorem foldExts_alpn_found :
    ∀ es (p0 : List Nat) (s a : Option (List Nat)),
    (16, p0) ∈ es → (∀ p, (16, p) ∈ es → p = p0) →
    (foldExts es s a).alpn = some p0 := by
  intro es
  induction es with
  | nil => intro p0 s a hm _; exact absurd hm (List.not_mem_nil _)
  | cons e es ih =>
    intro p0 s a hm hset
    obtain ⟨t, p⟩ := e
    have hsetl : ∀ p, (16, p) ∈ es → p = p0 :=
      fun p hp => hset p (List.mem_cons_of_mem _ hp)
    rw [foldExts]
    by_cases h16 : t = 16
    · have hp : p = p0 := hset p (by rw [h16]; exact List.mem_cons_self _ _)
      rw [if_pos h16, hp]
      exact foldExts_alpn_stable es p0 s hsetl
    · have hmt : (16, p0) ∈ es := by
        rcases List.mem_cons.mp hm with he | he
        · exact absurd (Prod.mk.injEq _ _ _ _ ▸ he).1.symm h16
        · exact he
      rw [if_neg h16]
      by_cases h0 : t = 0
      · rw [if_pos h0]
        exact ih p0 (some p) a hmt hsetl
      · rw [if_neg h0]
        exact ih p0 s a hmt hsetl

theorem dropE_exact (l t : List Nat) (n : Nat) (h : l.length = n) :
    dropE n (l ++ t) = some t := by
  rw [dropE, if_pos (by simp [h])]
  rw [← h, List.drop_left]

theorem dropE_two (a b : Nat) (t : List Nat) : dropE 2 (a :: b :: t) = some t := by
  rw [dropE, if_pos (by simp)]
  rfl

/-- A ClientHello body laid out per RFC 8446: 2-byte legacy version, 32-byte
random, 1-byte-length-prefixed session id, 2-byte-length-prefixed
cipher-suite list, 1-byte-length-prefixed compression methods, the 2-byte
extensions-block length field (bytes `e1 e2`), then the extension bytes. -/
def clientHelloBody (v1 v2 : Nat) (random sid cs comp : List Nat)
    (e1 e2 : Nat) (ext : List Nat) : List Nat :=
  [v1, v2] ++ random ++ [sid.length] ++ sid ++ u16be cs.length ++ cs ++
    [comp.length] ++ comp ++ [e1, e2] ++ ext

theorem fromBytesFlat_body (v1 v2 : Nat) (random sid cs comp : List Nat)
    (e1 e2 : Nat) (ext : List Nat) (hrand : random.length = 32)
    (hcs : cs.length < 65536) :
    ClientHello.fromBytesFlat (clientHelloBody v1 v2 random sid cs comp e1 e2 ext) =
      ClientHello.extLoopFlat (ext.length + 1) ext none none := by
  have hcsv : cs.length / 256 % 256 * 256 + cs.length % 256 = cs.length := by
    omega
  rw [clientHelloBody, ClientHello.fromBytesFlat]
  simp only [u16be, List.cons_append, List.nil_append, List.append_assoc,
    Option.bind_eq_bind, Option.some_bind, readU8F, readU16F, dropE_two,
    dropE_exact random _ 32 hrand, dropE_exact sid _ sid.length rfl, hcsv,
    dropE_exact cs _ cs.length rfl, dropE_exact comp _ comp.length rfl]

/-- Modelled from the spec: the per-session key-installation lifecycle state
(spec §4.2): four per-level write-once flags, a completion flag and a
terminal `failed` flag. The session state machine itself is missing from the
sampled sources — `tls.rs` only declares the `Context` trait through which
its callbacks fire. -/
structure SessionState where
  initialKeys : Bool
  handshakeKeys : Bool
  zeroRttKeys : Bool
  oneRttKeys : Bool
  handshakeDone : Bool
  failed : Bool
deriving DecidableEq

/-- A fresh session: nothing installed, not failed. -/
def SessionState.fresh : SessionState :=
  ⟨false, false, false, false, false, false⟩

/-- The key-lifecycle events a TLS engine can drive. -/
inductive SessionEvent
  | installInitial
  | installHandshake
  | installZeroRtt
  | installOneRtt
  | finishHandshake
deriving DecidableEq

/-- The `Context` callbacks (from the trait in `tls.rs`) that a lifecycle
event emits on success. -/
inductive ContextCall
  | onHandshakeKeys
  | onZeroRttKeys
  | onOneRttKeys
  | onHandshakeComplete
deriving DecidableEq

/-- Modelled from the spec: one lifecycle step (spec §4.1 ordering
invariants and §4.2 transition guards). Each level installs at most once;
`installHandshake` requires Initial keys; `installZeroRtt` and
`installOneRtt` require Handshake keys; `finishHandshake` requires One-RTT
keys. A guard violation marks the session `failed` without installing and
emits no context call; a failed session ignores every event and emits no
context call. -/
def SessionState.step (s : SessionState) (e : SessionEvent) :
    SessionState × List ContextCall :=
  if s.failed then (s, [])
  else
    match e with
    | .installInitial =>
      if !s.initialKeys then ({ s with initialKeys := true }, [])
      else ({ s with failed := true }, [])
    | .installHandshake =>
      if s.initialKeys && !s.handshakeKeys then
        ({ s with handshakeKeys := true }, [.onHandshakeKeys])
      else ({ s with failed := true }, [])
    | .installZeroRtt =>
      if s.handshakeKeys && !s.zeroRttKeys then
        ({ s with zeroRttKeys := true }, [.onZeroRttKeys])
      else ({ s with failed := true }, [])
    | .installOneRtt =>
      if s.handshakeKeys && !s.oneRttKeys then
        ({ s with oneRttKeys := true }, [.onOneRttKeys])
      else ({ s with failed := true }, [])
    | .finishHandshake =>
      if s.oneRttKeys && !s.handshakeDone then
        ({ s with handshakeDone := true }, [.onHandshakeComplete])
      else ({ s with failed := true }, [])

/-- C6: `CipherSuite::from` on a 2-byte wire tag is total and never fails:
0x1301, 0x1302, 0x1303 map to the three named TLS 1.3 suites and every other
16-bit value maps to `Unknown`. -/
theorem cipherSuite_fromU16_total :
    CipherSuite.fromU16 0x1301 = CipherSuite.TLS_AES_128_GCM_SHA256 ∧
    CipherSuite.fromU16 0x1302 = CipherSuite.TLS_AES_256_GCM_SHA384 ∧
    CipherSuite.fromU16 0x1303 = CipherSuite.TLS_CHACHA20_POLY1305_SHA256 ∧
    ∀ x, x < 65536 → x ≠ 0x1301 → x ≠ 0x1302 → x ≠ 0x1303 →
      CipherSuite.fromU16 x = CipherSuite.Unknown := by
  refine ⟨rfl, rfl, rfl, ?_⟩
  intro x hx h1 h2 h3
  simp only [CipherSuite.fromU16]
  rw [if_neg (by rw [(by decide : ((0x13 <<< 8) + 0x1 : Nat) = 0x1301)]; exact h1),
    if_neg (by rw [(by decide : ((0x13 <<< 8) + 0x2 : Nat) = 0x1302)]; exact h2),
    if_neg (by rw [(by decide : ((0x13 <<< 8) + 0x3 : Nat) = 0x1303)]; exact h3)]

/-- Witness for C6 at the concrete unknown tag 5. -/
theorem cipherSuite_fromU16_total_witness :
    (5 : Nat) < 65536 ∧ (5 : Nat) ≠ 0x1301 ∧ (5 : Nat) ≠ 0x1302 ∧
    (5 : Nat) ≠ 0x1303 ∧ CipherSuite.fromU16 5 = CipherSuite.Unknown :=
  ⟨by decide, by decide, by decide, by decide,
    cipherSuite_fromU16_total.2.2.2 5 (by decide) (by decide) (by decide)
      (by decide)⟩

/-- C7 counterexample: wire code 2 is a 2-byte code outside the registry and
the conversion yields `none` (modelling `TryFrom`'s `Err(())`) — a failure,
not a distinct catch-all member of the enumeration. -/
theorem extensionType_unknown_is_failure :
    (2 : Nat) < 65536 ∧ 2 ∉ extensionRegistryCodes ∧
    ExtensionType.tryFromU16 2 = none := by decide

/-- C7 amended: every registered code round-trips code → enum → code as the
identity; every 2-byte code outside the registry parses to an explicit error
(`Err(())`, modelled `none`), never to an enumeration member. -/
theorem extensionType_registry_roundtrip :
    (∀ e : ExtensionType, ExtensionType.tryFromU16 e.code = some e) ∧
    (∀ v, v < 65536 → v ∉ extensionRegistryCodes →
      ExtensionType.tryFromU16 v = none) := by
  constructor
  · intro e
    cases e <;> rfl
  · intro v hv hmem
    have hne := by simpa [extensionRegistryCodes] using hmem
    rw [ExtensionType.tryFromU16, if_neg hne.1,
      if_neg hne.2.1,
      if_neg hne.2.2.1,
      if_neg hne.2.2.2.1,
      if_neg hne.2.2.2.2.1,
      if_neg hne.2.2.2.2.2.1,
      if_neg hne.2.2.2.2.2.2.1,
      if_neg hne.2.2.2.2.2.2.2.1,
      if_neg hne.2.2.2.2.2.2.2.2.1,
      if_neg hne.2.2.2.2.2.2.2.2.2.1,
      if_neg hne.2.2.2.2.2.2.2.2.2.2.1,
      if_neg hne.2.2.2.2.2.2.2.2.2.2.2.1,
      if_neg hne.2.2.2.2.2.2.2.2.2.2.2.2.1,
      if_neg hne.2.2.2.2.2.2.2.2.2.2.2.2.2.1,
      if_neg hne.2.2.2.2.2.2.2.2.2.2.2.2.2.2.1,
      if_neg hne.2.2.2.2.2.2.2.2.2.2.2.2.2.2.2.1,
      if_neg hne.2.2.2.2.2.2.2.2.2.2.2.2.2.2.2.2.1,
      if_neg hne.2.2.2.2.2.2.2.2.2.2.2.2.2.2.2.2.2.1,
      if_neg hne.2.2.2.2.2.2.2.2.2.2.2.2.2.2.2.2.2.2.1,
      if_neg hne.2.2.2.2.2.2.2.2.2.2.2.2.2.2.2.2.2.2.2.1,
      if_neg hne.2.2.2.2.2.2.2.2.2.2.2.2.2.2.2.2.2.2.2.2.1,
      if_neg hne.2.2.2.2.2.2.2.2.2.2.2.2.2.2.2.2.2.2.2.2.2.1,
      if_neg hne.2.2.2.2.2.2.2.2.2.2.2.2.2.2.2.2.2.2.2.2.2.2.1,
      if_neg hne.2.2.2.2.2.2.2.2.2.2.2.2.2.2.2.2.2.2.2.2.2.2.2.1,
      if_neg hne.2.2.2.2.2.2.2.2.2.2.2.2.2.2.2.2.2.2.2.2.2.2.2.2.1,
      if_neg hne.2.2.2.2.2.2.2.2.2.2.2.2.2.2.2.2.2.2.2.2.2.2.2.2.2.1,
      if_neg hne.2.2.2.2.2.2.2.2.2.2.2.2.2.2.2.2.2.2.2.2.2.2.2.2.2.2.1,
      if_neg hne.2.2.2.2.2.2.2.2.2.2.2.2.2.2.2.2.2.2.2.2.2.2.2.2.2.2.2]

/-- Witness for C7's amended claim at `key_share` and the unknown code 3. -/
theorem extensionType_registry_roundtrip_witness :
    ExtensionType.tryFromU16 ExtensionType.key_share.code =
      some ExtensionType.key_share ∧
    (3 : Nat) < 65536 ∧ 3 ∉ extensionRegistryCodes ∧
    ExtensionType.tryFromU16 3 = none :=
  ⟨extensionType_registry_roundtrip.1 ExtensionType.key_share, by decide,
    by decide, extensionType_registry_roundtrip.2 3 (by decide) (by decide)⟩

/-- C8: encoding a `(type, length)` pair with `length < 2^24` as a
`HandshakeHeader` and decoding it back is the identity; `len()` zero-extends
the 3 bytes, so it is always below 2^24 for byte-valued fields; `is_empty`
holds iff the length is 0. -/
theorem handshakeHeader_roundtrip :
    (∀ t length, length < 2 ^ 24 →
      HandshakeHeader.decode (HandshakeHeader.ofPair t length).encode =
        some (HandshakeHeader.ofPair t length) ∧
      (HandshakeHeader.ofPair t length).msg_type = t ∧
      (HandshakeHeader.ofPair t length).len = length) ∧
    (∀ h : HandshakeHeader, h.len0 < 256 → h.len1 < 256 → h.len2 < 256 →
      h.len < 2 ^ 24) ∧
    (∀ h : HandshakeHeader, h.is_empty = true ↔ h.len = 0) := by
  refine ⟨?_, ?_, ?_⟩
  · intro t length hlen
    refine ⟨rfl, rfl, ?_⟩
    show ((0 * 256 + length / 65536 % 256) * 256 + length / 256 % 256) * 256 +
      length % 256 = length
    omega
  · intro h h0 h1 h2
    show ((0 * 256 + h.len0) * 256 + h.len1) * 256 + h.len2 < 2 ^ 24
    omega
  · intro h
    rw [HandshakeHeader.is_empty]
    simp

/-- Witness for C8 at the pair (22, 0x123456). -/
theorem handshakeHeader_roundtrip_witness :
    (0x123456 : Nat) < 2 ^ 24 ∧
    HandshakeHeader.decode (HandshakeHeader.ofPair 22 0x123456).encode =
      some (HandshakeHeader.ofPair 22 0x123456) ∧
    (HandshakeHeader.ofPair 22 0x123456).msg_type = 22 ∧
    (HandshakeHeader.ofPair 22 0x123456).len = 0x123456 ∧
    (HandshakeHeader.ofPair 22 0x123456).len < 2 ^ 24 :=
  ⟨by decide, (handshakeHeader_roundtrip.1 22 0x123456 (by decide)).1,
    (handshakeHeader_roundtrip.1 22 0x123456 (by decide)).2.1,
    (handshakeHeader_roundtrip.1 22 0x123456 (by decide)).2.2,
    handshakeHeader_roundtrip.2.1 (HandshakeHeader.ofPair 22 0x123456)
      (by decide) (by decide) (by decide)⟩

/-- C3: on a session that has not failed and has no Handshake keys,
installing One-RTT keys is rejected: the session transitions to `failed`,
the keys are not recorded as installed, no context callback fires, and once
failed no event changes the state or invokes a context method. -/
theorem one_rtt_before_handshake_rejected (s : SessionState)
    (hf : s.failed = false) (hh : s.handshakeKeys = false) :
    (s.step .installOneRtt).1.failed = true ∧
    (s.step .installOneRtt).1.oneRttKeys = s.oneRttKeys ∧
    (s.step .installOneRtt).2 = [] ∧
    ∀ e, ((s.step .installOneRtt).1.step e).1 = (s.step .installOneRtt).1 ∧
      ((s.step .installOneRtt).1.step e).2 = [] := by
  have hstep : s.step .installOneRtt = ({ s with failed := true }, []) := by
    rw [SessionState.step, if_neg (by simp [hf])]
    simp [hh]
  rw [hstep]
  refine ⟨rfl, rfl, rfl, ?_⟩
  intro e
  constructor <;> (cases e <;> simp [SessionState.step])

/-- Witness for C3 at the fresh session. -/
theorem one_rtt_before_handshake_rejected_witness :
    SessionState.fresh.failed = false ∧
    SessionState.fresh.handshakeKeys = false ∧
    (SessionState.fresh.step .installOneRtt).1.failed = true ∧
    (SessionState.fresh.step .installOneRtt).1.oneRttKeys = false ∧
    (SessionState.fresh.step .installOneRtt).2 = [] ∧
    ((SessionState.fresh.step .installOneRtt).1.step .installHandshake).2 = [] :=
  ⟨rfl, rfl, (one_rtt_before_handshake_rejected SessionState.fresh rfl rfl).1,
    (one_rtt_before_handshake_rejected SessionState.fresh rfl rfl).2.1,
    (one_rtt_before_handshake_rejected SessionState.fresh rfl rfl).2.2.1,
    ((one_rtt_before_handshake_rejected SessionState.fresh rfl rfl).2.2.2
      SessionEvent.installHandshake).2⟩

theorem serializeExts_length (es : List (Nat × List Nat)) :
    es.length ≤ (serializeExts es).length := by
  induction es with
  | nil => simp [serializeExts]
  | cons e es ih =>
    obtain ⟨t, p⟩ := e
    simp only [serializeExts, serializeExt, u16be, List.map_cons,
      List.flatten_cons, List.length_cons, List.length_append] at *
    omega

/-- C1 (code defect): requesting more bytes than `remaining()` reports does
not yield an error — it panics (modelled `none`). At the one-chunk buffer
`[[0]]` with one remaining byte, `advance(2)` runs the chunk list out and
indexes `slices[slices.len()]` (a Rust index panic); `get_u16` and
`copy_to_bytes(2)` fail the `bytes` crate's remaining-bytes assertion (a
Rust assertion panic); `get_u8` on an empty buffer does the same. No
`Result`-style error value exists anywhere in this API. -/
theorem cursor_overrun_panics :
    (NonContiguousBuffer.new [[0]]).remaining = 1 ∧
    (NonContiguousBuffer.new [[0]]).advance 2 = none ∧
    (NonContiguousBuffer.new [[0]]).get_u16 = none ∧
    (NonContiguousBuffer.new [[0]]).copy_to_bytes 2 = none ∧
    (NonContiguousBuffer.new ([] : List (List Nat))).get_u8 = none := by
  decide

/-- The truncated ClientHello body of C2: well-formed up to the extension
list, whose single extension (type 0 = SNI) declares a 10-byte payload while
only 2 bytes remain after its header. -/
def truncatedClientHelloBody : List Nat :=
  clientHelloBody 3 3 (List.replicate 32 0) [] [0x13, 0x01] [0] 0 6
    ([0, 0, 0, 10] ++ [1, 2])

/-- C2 (code defect): on a truncated extension, `ClientHello::from_bytes`
panics (modelled `none`) inside `copy_to_bytes` instead of returning a typed
malformed-input error — its Rust signature returns a bare `ClientHello`, so
no error value can even be produced. -/
theorem from_bytes_truncated_panics :
    ClientHello.from_bytes [truncatedClientHelloBody] = none := by
  decide

/-- C4: running any sequence of cursor operations whose costs sum to the
full byte sequence yields byte-identical results for any two partitions of
the same bytes into non-empty chunks. -/
theorem cursor_chunking_independent (chunks1 chunks2 : List (List Nat))
    (ops : List CursorOp)
    (h1 : ∀ c ∈ chunks1, c ≠ []) (h2 : ∀ c ∈ chunks2, c ≠ [])
    (hflat : chunks1.flatten = chunks2.flatten)
    (hcost : (ops.map CursorOp.cost).sum = chunks1.flatten.length) :
    runOps (NonContiguousBuffer.new chunks1) ops =
      runOps (NonContiguousBuffer.new chunks2) ops := by
  rw [runOps_eq_flat ops _ (new_Inv chunks1 h1),
    runOps_eq_flat ops _ (new_Inv chunks2 h2), new_rest, new_rest, hflat]

/-- Witness for C4: `[1] ++ [2,3]` versus `[1,2] ++ [3]`, read by one
`get_u8` and one `get_u16` (costs 1 + 2 = full length 3). -/
theorem cursor_chunking_independent_witness :
    ([[1], [2, 3]] : List (List Nat)).flatten =
      ([[1, 2], [3]] : List (List Nat)).flatten ∧
    (([CursorOp.readU8, CursorOp.readU16]).map CursorOp.cost).sum =
      ([[1], [2, 3]] : List (List Nat)).flatten.length ∧
    runOps (NonContiguousBuffer.new [[1], [2, 3]])
        [CursorOp.readU8, CursorOp.readU16] =
      runOps (NonContiguousBuffer.new [[1, 2], [3]])
        [CursorOp.readU8, CursorOp.readU16] :=
  ⟨by decide, by decide,
    cursor_chunking_independent [[1], [2, 3]] [[1, 2], [3]]
      [CursorOp.readU8, CursorOp.readU16] (by decide) (by decide) (by decide)
      (by decide)⟩

/-- C9: a ClientHello whose extensions block contains zero extensions parses
successfully with both SNI and ALPN absent, for any chunking of the body and
any value of the extensions-length field. -/
theorem from_bytes_no_extensions (chunks : List (List Nat)) (v1 v2 : Nat)
    (random sid cs comp : List Nat) (e1 e2 : Nat)
    (hne : ∀ c ∈ chunks, c ≠ [])
    (hbody : chunks.flatten = clientHelloBody v1 v2 random sid cs comp e1 e2 [])
    (hrand : random.length = 32) (hcs : cs.length < 65536) :
    ClientHello.from_bytes chunks = some ⟨none, none⟩ := by
  rw [from_bytes_eq_flat chunks hne, hbody,
    fromBytesFlat_body v1 v2 random sid cs comp e1 e2 [] hrand hcs]
  rfl

/-- The zero-extension ClientHello body used as the C9 witness input. -/
def emptyExtClientHelloBody : List Nat :=
  clientHelloBody 3 3 (List.replicate 32 7) [9] [0x13, 0x01] [0] 0 0 []

/-- Witness for C9 at a concrete zero-extension body. -/
theorem from_bytes_no_extensions_witness :
    (List.replicate 32 7).length = 32 ∧
    ([0x13, 0x01] : List Nat).length < 65536 ∧
    ClientHello.from_bytes [emptyExtClientHelloBody] = some ⟨none, none⟩ :=
  ⟨by decide, by decide,
    from_bytes_no_extensions [emptyExtClientHelloBody] 3 3
      (List.replicate 32 7) [9] [0x13, 0x01] [0] 0 0 (by decide) (by decide)
      (by decide) (by decide)⟩

/-- C5: a well-formed ClientHello body whose extension list contains an SNI
extension (tag 0, payload `sniP`) and an ALPN extension (tag 16, payload
`alpnP`) — in any position, in any order, among arbitrary other extensions —
parses to exactly those two payloads, for any chunking of the body. -/
theorem from_bytes_extracts_sni_alpn (chunks : List (List Nat)) (v1 v2 : Nat)
    (random sid cs comp : List Nat) (e1 e2 : Nat)
    (exts : List (Nat × List Nat)) (sniP alpnP : List Nat)
    (hne : ∀ c ∈ chunks, c ≠ [])
    (hbody : chunks.flatten =
      clientHelloBody v1 v2 random sid cs comp e1 e2 (serializeExts exts))
    (hrand : random.length = 32) (hcs : cs.length < 65536)
    (hwf : ∀ e ∈ exts, e.1 < 65536 ∧ e.2.length < 65536)
    (hsni : (0, sniP) ∈ exts) (halpn : (16, alpnP) ∈ exts)
    (hsni1 : ∀ e ∈ exts, e.1 = 0 → e.2 = sniP)
    (halpn1 : ∀ e ∈ exts, e.1 = 16 → e.2 = alpnP) :
    ClientHello.from_bytes chunks = some ⟨some sniP, some alpnP⟩ := by
  rw [from_bytes_eq_flat chunks hne, hbody,
    fromBytesFlat_body v1 v2 random sid cs comp e1 e2 (serializeExts exts)
      hrand hcs,
    extLoopFlat_serialize exts none none ((serializeExts exts).length + 1)
      (by have := serializeExts_length exts; omega) hwf]
  have hs := foldExts_sni_found exts sniP none none hsni
    (fun p hp => hsni1 (0, p) hp rfl)
  have ha := foldExts_alpn_found exts alpnP none none halpn
    (fun p hp => halpn1 (16, p) hp rfl)
  rcases hfold : foldExts exts none none with ⟨fs, fa⟩
  rw [hfold] at hs ha
  have hs' : fs = some sniP := hs
  have ha' : fa = some alpnP := ha
  rw [hs', ha']

/-- The SNI payload `gimme.moar.bandwidth` as bytes. -/
def sniExamplePayload : List Nat :=
  [103, 105, 109, 109, 101, 46, 109, 111, 97, 114, 46, 98, 97, 110, 100,
   119, 105, 100, 116, 104]

/-- The ALPN payload `h3` as bytes. -/
def alpnExamplePayload : List Nat := [104, 51]

/-- SNI-then-ALPN extension list for the C5 witness. -/
def sniAlpnExts1 : List (Nat × List Nat) :=
  [(0, sniExamplePayload), (16, alpnExamplePayload)]

/-- ALPN-then-SNI extension list for the C5 witness. -/
def sniAlpnExts2 : List (Nat × List Nat) :=
  [(16, alpnExamplePayload), (0, sniExamplePayload)]

/-- C5 witness body, SNI first. -/
def sniAlpnBody1 : List Nat :=
  clientHelloBody 3 3 (List.replicate 32 0) [] [0x13, 0x01] [0] 0 30
    (serializeExts sniAlpnExts1)

/-- C5 witness body, ALPN first. -/
def sniAlpnBody2 : List Nat :=
  clientHelloBody 3 3 (List.replicate 32 0) [] [0x13, 0x01] [0] 0 30
    (serializeExts sniAlpnExts2)

/-- Witness for C5: both extension orders of the concrete scenario
(`gimme.moar.bandwidth`, `h3`) yield both payloads. -/
theorem from_bytes_extracts_sni_alpn_witness :
    (List.replicate 32 0).length = 32 ∧
    ([0x13, 0x01] : List Nat).length < 65536 ∧
    ClientHello.from_bytes [sniAlpnBody1] =
      some ⟨some sniExamplePayload, some alpnExamplePayload⟩ ∧
    ClientHello.from_bytes [sniAlpnBody2] =
      some ⟨some sniExamplePayload, some alpnExamplePayload⟩ :=
  ⟨by decide, by decide,
    from_bytes_extracts_sni_alpn [sniAlpnBody1] 3 3 (List.replicate 32 0) []
      [0x13, 0x01] [0] 0 30 sniAlpnExts1 sniExamplePayload alpnExamplePayload
      (by decide) (by decide) (by decide) (by decide) (by decide) (by decide)
      (by decide) (by decide) (by decide),
    from_bytes_extracts_sni_alpn [sniAlpnBody2] 3 3 (List.replicate 32 0) []
      [0x13, 0x01] [0] 0 30 sniAlpnExts2 sniExamplePayload alpnExamplePayload
      (by decide) (by decide) (by decide) (by decide) (by decide) (by decide)
      (by decide) (by decide) (by decide)⟩

/-- C10: the 2-byte extensions-length field is read but never used: two
bodies identical except for that field's bytes (`e1 e2` versus `f1 f2`)
produce identical `from_bytes` results, for any chunkings of the two
bodies. -/
theorem from_bytes_ignores_ext_length_field (chunksA chunksB : List (List Nat))
    (v1 v2 : Nat) (random sid cs comp : List Nat) (e1 e2 f1 f2 : Nat)
    (ext : List Nat)
    (hneA : ∀ c ∈ chunksA, c ≠ []) (hneB : ∀ c ∈ chunksB, c ≠ [])
    (hA : chunksA.flatten = clientHelloBody v1 v2 random sid cs comp e1 e2 ext)
    (hB : chunksB.flatten = clientHelloBody v1 v2 random sid cs comp f1 f2 ext)
    (hrand : random.length = 32) (hcs : cs.length < 65536) :
    ClientHello.from_bytes chunksA = ClientHello.from_bytes chunksB := by
  rw [from_bytes_eq_flat _ hneA, from_bytes_eq_flat _ hneB, hA, hB,
    fromBytesFlat_body v1 v2 random sid cs comp e1 e2 ext hrand hcs,
    fromBytesFlat_body v1 v2 random sid cs comp f1 f2 ext hrand hcs]

/-- C10 witness body with extensions-length bytes (0, 99). -/
def extLenBodyA : List Nat :=
  clientHelloBody 3 3 (List.replicate 32 1) [5] [] [0] 0 99 [0, 5, 0, 1, 42]

/-- C10 witness body with extensions-length bytes (200, 7). -/
def extLenBodyB : List Nat :=
  clientHelloBody 3 3 (List.replicate 32 1) [5] [] [0] 200 7 [0, 5, 0, 1, 42]

/-- Witness for C10: the two concrete bodies differing only in the
extensions-length field parse identically. -/
theorem from_bytes_ignores_ext_length_field_witness :
    (List.replicate 32 1).length = 32 ∧
    ([] : List Nat).length < 65536 ∧
    ClientHello.from_bytes [extLenBodyA] = ClientHello.from_bytes [extLenBodyB] :=
  ⟨by decide, by decide,
    from_bytes_ignores_ext_length_field [extLenBodyA] [extLenBodyB] 3 3
      (List.replicate 32 1) [5] [] [0] 0 99 200 7 [0, 5, 0, 1, 42]
      (by decide) (by decide) (by decide) (by decide) (by decide) (by decide)⟩
